import Mathlib

/-!
# Verification of the HDF5 restructuring ("transpose") operations

Shallow embedding of the hierarchical-store transpose implemented in
`databases_tools.py` (`restructure_hdf5_file`) and
`sample/databases_tools.py` (`H5.restructure_fl`), together with the
common-key helper `get_uniques_in_list_of_lists` from
`pymiscell/strings_tools.py`.

An HDF5 file is modelled as an association list of outer groups in the
file's iteration order (h5py iterates member names in a fixed order and
member names within one container are unique).  Each outer group owns
attributes and an association list of entries (first-level datasets);
each entry owns numeric array data (flattened to a list) and attributes.
The filesystem is modelled as an association list from path strings to
store contents, where writing prepends a binding (shadowing) and
deleting removes every binding of the path.
-/

namespace MiscTools

/-- An attribute value: h5py attributes hold scalars or strings. -/
inductive AttrVal where
  | s (v : String)
  | i (v : Int)
  deriving DecidableEq, Repr

/-- An attribute set, keyed by attribute name. -/
abbrev Attrs := List (String × AttrVal)

/-- A first-level dataset: array data plus its own attributes. -/
structure Entry where
  data : List Int
  attrs : Attrs
  deriving DecidableEq, Repr

/-- A root-level group: its attributes and its named first-level datasets,
in iteration order. -/
structure Group where
  attrs : Attrs
  entries : List (String × Entry)
  deriving DecidableEq, Repr

/-- An HDF5 file's content: the root-level groups in iteration order. -/
abbrev Store := List (String × Group)

/-- A filesystem: path contents of the hdf5 files on disk. -/
abbrev FS := List (String × Store)

/-- Reading the file at a path (first binding wins: writes shadow). -/
def fsGet (fs : FS) (p : String) : Option Store := fs.lookup p

/-- Writing a file at a path (h5py mode 'w': create or truncate). -/
def fsSet (fs : FS) (p : String) (s : Store) : FS := (p, s) :: fs

/-- Deleting the file at a path (`Path.unlink`). -/
def fsErase (fs : FS) (p : String) : FS := fs.filter fun q => q.1 != p

/-- The helper `strings_tools.get_uniques_in_list_of_lists`: flat list of
the unique values in a list of lists (Python builds a set; order is
unspecified, we deduplicate the concatenation). -/
def get_uniques_in_list_of_lists (l : List (List String)) : List String :=
  l.flatten.dedup

/-- The default common key set of `restructure_hdf5_file` /
`H5.restructure_fl`: `get_uniques_in_list_of_lists([v.keys() for v in
db_file.values()])`. -/
def computeCommonKeys (src : Store) : List String :=
  get_uniques_in_list_of_lists (src.map fun pr => pr.2.entries.map Prod.fst)

/-- The key list actually iterated: Python's `if not common_sub_groups`
treats both `None` and an empty list as absent, falling back to the
computed common keys. -/
def effectiveKeys (src : Store) (keys? : Option (List String)) : List String :=
  match keys? with
  | some (k :: ks) => k :: ks
  | _ => computeCommonKeys src

/-- Metadata policies of spec section 3.  `groupToEntry` is the behaviour
of both source variants (`ds.attrs.update(group.attrs)`); `entryToEntry`
is policy (a), modelled from the spec (no source variant implements
it). -/
inductive AttrPolicy where
  | groupToEntry
  | entryToEntry
  deriving DecidableEq, Repr

/-- Attributes given to a freshly created transposed dataset (it starts
with no attributes; `attrs.update` then copies the chosen source). -/
def newEntryAttrs : AttrPolicy → Group → Entry → Attrs
  | .groupToEntry, g, _ => g.attrs
  | .entryToEntry, _, e => e.attrs

/-- Failures of the transpose: `missingEntry gn k` is h5py's `KeyError`
from `group[key]` when group `gn` lacks entry `k`; `keyError k` is the
Python dict `KeyError` from `datasets_attrs[key]` in `restructure_fl`;
`fileNotFound` is h5py failing to open a missing file for reading. -/
inductive Err where
  | missingEntry (group key : String)
  | keyError (key : String)
  | fileNotFound (path : String)
  deriving DecidableEq, Repr

/-- The inner loop body for one new outer group `key`: `for group_n,
group in db_file.items(): ds = out_grp.create_dataset(group_n,
data=group[key]); ds.attrs.update(group.attrs)`.  Returns the datasets
created before any failure, and the failure if one occurred. -/
def groupEntriesSteps (p : AttrPolicy) : Store → String → List (String × Entry) × Option Err
  | [], _ => ([], none)
  | (gn, g) :: rest, key =>
    match g.entries.lookup key with
    | none => ([], some (Err.missingEntry gn key))
    | some e =>
      let r := groupEntriesSteps p rest key
      ((gn, ⟨e.data, newEntryAttrs p g e⟩) :: r.1, r.2)

/-- The outer loop of `restructure_hdf5_file`: `for key in
common_sub_groups: out_grp = out.create_group(key); ...`.  New groups
carry no attributes.  Returns the groups materialized in the output file
(the failing one included, partially filled) and the failure if any. -/
def restructureSteps (p : AttrPolicy) (src : Store) : List String → Store × Option Err
  | [] => ([], none)
  | k :: ks =>
    let r := groupEntriesSteps p src k
    match r.2 with
    | some e => ([(k, ⟨[], r.1⟩)], some e)
    | none =>
      let rest := restructureSteps p src ks
      ((k, ⟨[], r.1⟩) :: rest.1, rest.2)

/-- The content-level transpose: the store written by
`restructure_hdf5_file` on success, or the error raised. -/
def restructure (p : AttrPolicy) (src : Store) (keys? : Option (List String)) :
    Except Err Store :=
  let r := restructureSteps p src (effectiveKeys src keys?)
  match r.2 with
  | none => .ok r.1
  | some e => .error e

/-- Default output path of `restructure_hdf5_file`: the source name with
`_tr` appended to the stem (stem surgery abstracted to a suffix on the
opaque path string). -/
def defaultOutPath (srcPath : String) : String := srcPath ++ "_tr"

/-- The function `databases_tools.restructure_hdf5_file` at the
filesystem level: opens
the source read-only, opens the output with mode 'w' (created or
truncated unconditionally), writes the transposed groups, and reports
the error if the copy loop failed partway. -/
def restructure_hdf5_file (fs : FS) (hdf5_path : String)
    (common_sub_groups : Option (List String)) (output_path : Option String) :
    FS × Option Err :=
  let out := output_path.getD (defaultOutPath hdf5_path)
  match fsGet fs hdf5_path with
  | none => (fs, some (Err.fileNotFound hdf5_path))
  | some src =>
    let r := restructureSteps .groupToEntry src (effectiveKeys src common_sub_groups)
    (fsSet fs out r.1, r.2)

/-- One Python dict update `d[k] = e.attrs`. -/
def updE (d : String → Option Attrs) (q : String × Entry) : String → Option Attrs :=
  fun k => if k = q.1 then some q.2.attrs else d k

/-- The `datasets_attrs` dict of `H5.restructure_fl`: `for groups in
self.values(): for dts_key, dts in groups.items(): datasets_attrs[dts_key]
= dts.attrs.items()` — later insertions overwrite earlier ones. -/
def dsAttrsDict (src : Store) : String → Option Attrs :=
  src.foldl (fun d pr => pr.2.entries.foldl updE d) (fun _ => none)

/-- The entry named `key` in the last source group (at the last position)
that contains one, following iteration order: the winner of the
`datasets_attrs` overwriting. -/
def lastEntryFor (src : Store) (key : String) : Option Entry :=
  ((src.map fun pr => pr.2.entries).flatten.reverse).lookup key

/-- The outer loop of `H5.restructure_fl`: like `restructureSteps` but
each new outer group additionally receives `datasets_attrs[key]` as its
own attributes (a dict `KeyError` if absent, after the empty group was
already created). -/
def restructureFlSteps (src : Store) (dict : String → Option Attrs) :
    List String → Store × Option Err
  | [] => ([], none)
  | k :: ks =>
    match dict k with
    | none => ([(k, ⟨[], []⟩)], some (Err.keyError k))
    | some a =>
      let r := groupEntriesSteps .groupToEntry src k
      match r.2 with
      | some e => ([(k, ⟨a, r.1⟩)], some e)
      | none =>
        let rest := restructureFlSteps src dict ks
        ((k, ⟨a, r.1⟩) :: rest.1, rest.2)

/-- The temp file path of `restructure_fl` (`Path(origin.parent, 'temp')`,
directories abstracted away). -/
def tempPath : String := "temp"

/-- The method `H5.restructure_fl` at the filesystem level: writes the
transposed
store to the temp path; on success copies it over the origin path
(`shutil.copy(temp_path, origin_path)`) and unlinks the temp file; on
failure the exception propagates before the copy, leaving the partial
temp file and the untouched origin. -/
def restructure_fl (fs : FS) (originPath : String)
    (common_dsets_keys : Option (List String)) : FS × Option Err :=
  match fsGet fs originPath with
  | none => (fs, some (Err.fileNotFound originPath))
  | some src =>
    let keys := effectiveKeys src common_dsets_keys
    let r := restructureFlSteps src (dsAttrsDict src) keys
    match r.2 with
    | some e => (fsSet fs tempPath r.1, some e)
    | none => (fsErase (fsSet (fsSet fs tempPath r.1) originPath r.1) tempPath, none)

/-! ## Association-list helper lemmas -/

theorem lookup_some_mem {β : Type} {l : List (String × β)} {a : String} {b : β}
    (h : l.lookup a = some b) : (a, b) ∈ l := by
  induction l with
  | nil => simp [List.lookup] at h
  | cons hd tl ih =>
    obtain ⟨k, v⟩ := hd
    by_cases hb : a = k
    · subst hb
      simp [List.lookup] at h
      simp [h]
    · have hbk : (a == k) = false := beq_false_of_ne hb
      simp [List.lookup, hbk] at h
      exact List.mem_cons_of_mem _ (ih h)

theorem lookup_some_mem_keys {β : Type} {l : List (String × β)} {a : String} {b : β}
    (h : l.lookup a = some b) : a ∈ l.map Prod.fst := by
  exact List.mem_map.mpr ⟨(a, b), lookup_some_mem h, rfl⟩

theorem mem_keys_lookup_isSome {β : Type} {l : List (String × β)} {a : String}
    (h : a ∈ l.map Prod.fst) : ∃ b, l.lookup a = some b := by
  induction l with
  | nil => simp at h
  | cons hd tl ih =>
    obtain ⟨k, v⟩ := hd
    by_cases hb : a = k
    · subst hb
      exact ⟨v, by simp [List.lookup]⟩
    · have hbk : (a == k) = false := beq_false_of_ne hb
      simp [List.lookup, hbk]
      rcases List.mem_map.mp h with ⟨pr, hpr, hfst⟩
      rcases List.mem_cons.mp hpr with h1 | h2
      · exact absurd (by rw [h1] at hfst; exact hfst) (Ne.symm hb)
      · exact ih (List.mem_map.mpr ⟨pr, h2, hfst⟩)

theorem lookup_append {β : Type} {l₁ l₂ : List (String × β)} {a : String} :
    (l₁ ++ l₂).lookup a =
      match l₁.lookup a with
      | some b => some b
      | none => l₂.lookup a := by
  induction l₁ with
  | nil => simp [List.lookup]
  | cons hd tl ih =>
    obtain ⟨k, v⟩ := hd
    by_cases hb : a = k
    · subst hb; simp [List.lookup]
    · have hbk : (a == k) = false := beq_false_of_ne hb
      simp [List.lookup, hbk, ih]

/-! ## Lemmas about the inner copy loop -/

theorem ge_none_iff {p : AttrPolicy} {src : Store} {k : String} :
    (groupEntriesSteps p src k).2 = none ↔
      ∀ pr ∈ src, ∃ e, pr.2.entries.lookup k = some e := by
  induction src with
  | nil => simp [groupEntriesSteps]
  | cons hd tl ih =>
    obtain ⟨gn, g⟩ := hd
    cases hl : g.entries.lookup k with
    | none =>
      simp only [groupEntriesSteps, hl]
      constructor
      · intro h; cases h
      · intro h
        rcases h (gn, g) (List.mem_cons_self _ _) with ⟨e, he⟩
        rw [hl] at he; cases he
    | some e =>
      simp only [groupEntriesSteps, hl]
      rw [ih]
      constructor
      · intro h pr hpr
        rcases List.mem_cons.mp hpr with h1 | h2
        · subst h1; exact ⟨e, hl⟩
        · exact h pr h2
      · intro h pr hpr
        exact h pr (List.mem_cons_of_mem _ hpr)

theorem ge_keys {p : AttrPolicy} {src : Store} {k : String}
    (h : (groupEntriesSteps p src k).2 = none) :
    (groupEntriesSteps p src k).1.map Prod.fst = src.map Prod.fst := by
  induction src with
  | nil => simp [groupEntriesSteps]
  | cons hd tl ih =>
    obtain ⟨gn, g⟩ := hd
    cases hl : g.entries.lookup k with
    | none => simp only [groupEntriesSteps, hl] at h; cases h
    | some e =>
      simp only [groupEntriesSteps, hl] at h ⊢
      simp [ih h]

theorem ge_lookup {p : AttrPolicy} {src : Store} {k g : String} {G : Group} {e : Entry}
    (hnone : (groupEntriesSteps p src k).2 = none)
    (hg : src.lookup g = some G) (he : G.entries.lookup k = some e) :
    (groupEntriesSteps p src k).1.lookup g = some ⟨e.data, newEntryAttrs p G e⟩ := by
  induction src with
  | nil => simp [List.lookup] at hg
  | cons hd tl ih =>
    obtain ⟨gn, g'⟩ := hd
    cases hl : g'.entries.lookup k with
    | none => simp only [groupEntriesSteps, hl] at hnone; cases hnone
    | some e' =>
      simp only [groupEntriesSteps, hl] at hnone ⊢
      by_cases hb : g = gn
      · subst hb
        simp [List.lookup] at hg ⊢
        subst hg
        rw [hl] at he
        cases he
        exact ⟨rfl, rfl⟩
      · have hbk : (g == gn) = false := beq_false_of_ne hb
        simp only [List.lookup, hbk] at hg ⊢
        exact ih hnone hg

theorem ge_lookup_rev {p : AttrPolicy} {src : Store} {k g : String} {E : Entry}
    (h : (groupEntriesSteps p src k).1.lookup g = some E) :
    ∃ G e, src.lookup g = some G ∧ G.entries.lookup k = some e ∧
      E = ⟨e.data, newEntryAttrs p G e⟩ := by
  induction src with
  | nil => simp [groupEntriesSteps, List.lookup] at h
  | cons hd tl ih =>
    obtain ⟨gn, g'⟩ := hd
    cases hl : g'.entries.lookup k with
    | none => simp [groupEntriesSteps, hl, List.lookup] at h
    | some e' =>
      simp only [groupEntriesSteps, hl] at h
      by_cases hb : g = gn
      · subst hb
        have hbt : (g == g) = true := beq_self_eq_true g
        simp only [List.lookup, hbt] at h
        injection h with h'
        subst h'
        exact ⟨g', e', by simp [List.lookup, hbt], hl, rfl⟩
      · have hbk : (g == gn) = false := beq_false_of_ne hb
        simp only [List.lookup, hbk] at h ⊢
        exact ih h

/-! ## Lemmas about the outer loop of `restructure_hdf5_file` -/

theorem rs_none_iff {p : AttrPolicy} {src : Store} {ks : List String} :
    (restructureSteps p src ks).2 = none ↔
      ∀ k ∈ ks, (groupEntriesSteps p src k).2 = none := by
  induction ks with
  | nil => simp [restructureSteps]
  | cons k rest ih =>
    cases hg : (groupEntriesSteps p src k).2 with
    | some e =>
      simp only [restructureSteps, hg]
      constructor
      · intro h; cases h
      · intro h
        have := h k (List.mem_cons_self _ _)
        rw [hg] at this; cases this
    | none =>
      simp only [restructureSteps, hg]
      rw [ih]
      constructor
      · intro h k' hk'
        rcases List.mem_cons.mp hk' with h1 | h2
        · subst h1; exact hg
        · exact h k' h2
      · intro h k' hk'
        exact h k' (List.mem_cons_of_mem _ hk')

theorem rs_keys {p : AttrPolicy} {src : Store} {ks : List String}
    (h : (restructureSteps p src ks).2 = none) :
    (restructureSteps p src ks).1.map Prod.fst = ks := by
  induction ks with
  | nil => simp [restructureSteps]
  | cons k rest ih =>
    cases hg : (groupEntriesSteps p src k).2 with
    | some e => simp only [restructureSteps, hg] at h; cases h
    | none =>
      simp only [restructureSteps, hg] at h ⊢
      simp [ih h]

theorem rs_lookup {p : AttrPolicy} {src : Store} {ks : List String} {k : String}
    (h : (restructureSteps p src ks).2 = none) (hk : k ∈ ks) :
    (restructureSteps p src ks).1.lookup k =
      some ⟨[], (groupEntriesSteps p src k).1⟩ := by
  induction ks with
  | nil => cases hk
  | cons k0 rest ih =>
    cases hg : (groupEntriesSteps p src k0).2 with
    | some e => simp only [restructureSteps, hg] at h; cases h
    | none =>
      simp only [restructureSteps, hg] at h ⊢
      by_cases hb : k = k0
      · subst hb
        simp [List.lookup]
      · have hbk : (k == k0) = false := beq_false_of_ne hb
        simp only [List.lookup, hbk]
        exact ih h ((List.mem_cons.mp hk).resolve_left hb)

theorem rs_lookup_shape {p : AttrPolicy} {src : Store} {ks : List String}
    {k : String} {D : Group}
    (h : (restructureSteps p src ks).2 = none)
    (hl : (restructureSteps p src ks).1.lookup k = some D) :
    D = ⟨[], (groupEntriesSteps p src k).1⟩ ∧
      (groupEntriesSteps p src k).2 = none ∧ k ∈ ks := by
  have hmem : k ∈ ks := by
    have := lookup_some_mem_keys hl
    rwa [rs_keys h] at this
  have := rs_lookup h hmem
  rw [hl] at this
  injection this with this
  exact ⟨this, rs_none_iff.mp h k hmem, hmem⟩

theorem rs_err_shape {p : AttrPolicy} {src : Store} {ks : List String} {e : Err}
    (h : (restructureSteps p src ks).2 = some e) :
    ∃ gn k, e = Err.missingEntry gn k := by
  induction ks with
  | nil => simp [restructureSteps] at h
  | cons k0 rest ih =>
    cases hg : (groupEntriesSteps p src k0).2 with
    | some e' =>
      simp only [restructureSteps, hg] at h
      injection h with h
      subst h
      clear ih
      induction src with
      | nil => simp [groupEntriesSteps] at hg
      | cons hd tl ih2 =>
        obtain ⟨gn, g⟩ := hd
        cases hl : g.entries.lookup k0 with
        | none =>
          simp only [groupEntriesSteps, hl] at hg
          injection hg with hg
          exact ⟨gn, k0, hg.symm⟩
        | some e2 =>
          simp only [groupEntriesSteps, hl] at hg
          exact ih2 hg
    | none =>
      simp only [restructureSteps, hg] at h
      exact ih h

theorem restructure_ok_iff {p : AttrPolicy} {src : Store}
    {keys? : Option (List String)} {dst : Store} :
    restructure p src keys? = .ok dst ↔
      (restructureSteps p src (effectiveKeys src keys?)).2 = none ∧
        (restructureSteps p src (effectiveKeys src keys?)).1 = dst := by
  have hmain : restructure p src keys? =
      (match (restructureSteps p src (effectiveKeys src keys?)).2 with
       | none => Except.ok (restructureSteps p src (effectiveKeys src keys?)).1
       | some e => Except.error e) := rfl
  cases h : (restructureSteps p src (effectiveKeys src keys?)).2 with
  | none =>
    rw [h] at hmain
    constructor
    · intro hh
      rw [hmain] at hh
      injection hh with hh
      exact ⟨rfl, hh⟩
    · intro hh
      rw [hmain, hh.2]
  | some e =>
    rw [h] at hmain
    constructor
    · intro hh
      rw [hmain] at hh
      cases hh
    · rintro ⟨h1, _⟩
      cases h1

/-! ## Lemmas about the computed common key set -/

theorem computeCommonKeys_nodup (src : Store) : (computeCommonKeys src).Nodup :=
  List.nodup_dedup _

theorem computeCommonKeys_mem {src : Store} {k : String} :
    k ∈ computeCommonKeys src ↔
      ∃ pr ∈ src, k ∈ pr.2.entries.map Prod.fst := by
  simp only [computeCommonKeys, get_uniques_in_list_of_lists, List.mem_dedup,
    List.mem_flatten, List.mem_map]
  constructor
  · rintro ⟨l, ⟨pr, hpr, rfl⟩, hk⟩
    exact ⟨pr, hpr, List.mem_map.mp hk⟩
  · rintro ⟨pr, hpr, hk⟩
    exact ⟨pr.2.entries.map Prod.fst, ⟨pr, hpr, rfl⟩, List.mem_map.mpr hk⟩

/-! ## Filesystem lemmas -/

theorem fsGet_fsSet_self (fs : FS) (p : String) (s : Store) :
    fsGet (fsSet fs p s) p = some s := by
  simp [fsGet, fsSet, List.lookup]

theorem fsGet_fsSet_ne {fs : FS} {p q : String} {s : Store} (h : q ≠ p) :
    fsGet (fsSet fs p s) q = fsGet fs q := by
  simp [fsGet, fsSet, List.lookup, beq_false_of_ne h]

theorem fsGet_fsErase_ne {fs : FS} {p q : String} (h : q ≠ p) :
    fsGet (fsErase fs p) q = fsGet fs q := by
  induction fs with
  | nil => rfl
  | cons hd tl ih =>
    obtain ⟨a, s⟩ := hd
    by_cases ha : a = p
    · subst ha
      have : (a != a) = false := by simp
      simp only [fsErase, List.filter] at ih ⊢
      rw [this]
      have hq : (q == a) = false := beq_false_of_ne h
      simp only [fsGet, List.lookup, hq] at ih ⊢
      exact ih
    · have : (a != p) = true := by simp [ha]
      simp only [fsErase, List.filter] at ih ⊢
      rw [this]
      by_cases hq : q = a
      · subst hq
        simp [fsGet, List.lookup]
      · have hqa : (q == a) = false := beq_false_of_ne hq
        simp only [fsGet, List.lookup, hqa] at ih ⊢
        exact ih

/-! ## Lemmas about the `datasets_attrs` dict of `restructure_fl` -/

theorem foldl_updE (es : List (String × Entry)) (d : String → Option Attrs)
    (k : String) :
    (es.foldl updE d) k =
      match es.reverse.lookup k with
      | some e => some e.attrs
      | none => d k := by
  induction es generalizing d with
  | nil => simp [List.lookup]
  | cons q rest ih =>
    rw [List.foldl_cons, ih, List.reverse_cons, lookup_append]
    cases hr : rest.reverse.lookup k with
    | some e => rfl
    | none =>
      by_cases hb : k = q.1
      · subst hb
        simp [List.lookup, updE]
      · have hbk : (k == q.1) = false := beq_false_of_ne hb
        simp [List.lookup, hbk, updE, hb]

theorem dsAttrsDict_eq (src : Store) (k : String) :
    dsAttrsDict src k = (lastEntryFor src k).map Entry.attrs := by
  suffices h : ∀ (gs : Store) (d : String → Option Attrs),
      (gs.foldl (fun d pr => pr.2.entries.foldl updE d) d) k =
        match ((gs.map fun pr => pr.2.entries).flatten.reverse).lookup k with
        | some e => some e.attrs
        | none => d k by
    have := h src (fun _ => none)
    rw [dsAttrsDict, this, lastEntryFor]
    cases ((src.map fun pr => pr.2.entries).flatten.reverse).lookup k <;> rfl
  intro gs
  induction gs with
  | nil => intro d; simp [List.lookup]
  | cons pr rest ih =>
    intro d
    rw [List.foldl_cons, ih, List.map_cons, List.flatten_cons,
      List.reverse_append, lookup_append]
    cases hr : (List.map (fun pr => pr.2.entries) rest).flatten.reverse.lookup k with
    | some e => rfl
    | none => rw [foldl_updE]

/-! ## Lemmas about the outer loop of `restructure_fl` -/

theorem fl_none_iff {src : Store} {dict : String → Option Attrs}
    {ks : List String} :
    (restructureFlSteps src dict ks).2 = none ↔
      ∀ k ∈ ks, (∃ a, dict k = some a) ∧
        (groupEntriesSteps .groupToEntry src k).2 = none := by
  induction ks with
  | nil => simp [restructureFlSteps]
  | cons k rest ih =>
    cases hd : dict k with
    | none =>
      simp only [restructureFlSteps, hd]
      constructor
      · intro h; cases h
      · intro h
        rcases (h k (List.mem_cons_self _ _)).1 with ⟨a, ha⟩
        rw [hd] at ha; cases ha
    | some a =>
      cases hg : (groupEntriesSteps .groupToEntry src k).2 with
      | some e =>
        simp only [restructureFlSteps, hd, hg]
        constructor
        · intro h; cases h
        · intro h
          have := (h k (List.mem_cons_self _ _)).2
          rw [hg] at this; cases this
      | none =>
        simp only [restructureFlSteps, hd, hg]
        rw [ih]
        constructor
        · intro h k' hk'
          rcases List.mem_cons.mp hk' with h1 | h2
          · subst h1; exact ⟨⟨a, hd⟩, hg⟩
          · exact h k' h2
        · intro h k' hk'
          exact h k' (List.mem_cons_of_mem _ hk')

theorem fl_lookup {src : Store} {dict : String → Option Attrs}
    {ks : List String} {k : String}
    (h : (restructureFlSteps src dict ks).2 = none) (hk : k ∈ ks) :
    ∃ a, dict k = some a ∧
      (restructureFlSteps src dict ks).1.lookup k =
        some ⟨a, (groupEntriesSteps .groupToEntry src k).1⟩ := by
  induction ks with
  | nil => cases hk
  | cons k0 rest ih =>
    cases hd : dict k0 with
    | none => simp only [restructureFlSteps, hd] at h; cases h
    | some a0 =>
      cases hg : (groupEntriesSteps .groupToEntry src k0).2 with
      | some e => simp only [restructureFlSteps, hd, hg] at h; cases h
      | none =>
        simp only [restructureFlSteps, hd, hg] at h ⊢
        by_cases hb : k = k0
        · subst hb
          exact ⟨a0, hd, by simp [List.lookup]⟩
        · have hbk : (k == k0) = false := beq_false_of_ne hb
          rcases ih h ((List.mem_cons.mp hk).resolve_left hb) with ⟨a, ha, hl⟩
          exact ⟨a, ha, by simp only [List.lookup, hbk]; exact hl⟩

theorem rs_mem_shape {p : AttrPolicy} {src : Store} {ks : List String}
    (h : (restructureSteps p src ks).2 = none) :
    ∀ pr ∈ (restructureSteps p src ks).1,
      pr.2 = ⟨[], (groupEntriesSteps p src pr.1).1⟩ ∧
        (groupEntriesSteps p src pr.1).2 = none := by
  induction ks with
  | nil => intro pr hpr; simp [restructureSteps] at hpr
  | cons k0 rest ih =>
    cases hg : (groupEntriesSteps p src k0).2 with
    | some e => simp only [restructureSteps, hg] at h; cases h
    | none =>
      simp only [restructureSteps, hg] at h ⊢
      intro pr hpr
      rcases List.mem_cons.mp hpr with h1 | h2
      · subst h1; exact ⟨rfl, hg⟩
      · exact ih h pr h2

/-! ## Concrete stores used by witnesses and counterexamples -/

/-- A two-model, two-variable store: groups `"1"`, `"2"` with entries
`"a"`, `"b"`; group attributes `m`; entry `("1","a")` has its own
attribute `d`. -/
def srcW2 : Store :=
  [("1", ⟨[("m", .s "a1")], [("a", ⟨[1, 2], [("d", .s "x")]⟩), ("b", ⟨[3], []⟩)]⟩),
   ("2", ⟨[("m", .s "a2")], [("a", ⟨[4], []⟩), ("b", ⟨[5], []⟩)]⟩)]

/-- The transpose of `srcW2` under the implemented policy. -/
def dstW2 : Store :=
  [("a", ⟨[], [("1", ⟨[1, 2], [("m", .s "a1")]⟩), ("2", ⟨[4], [("m", .s "a2")]⟩)]⟩),
   ("b", ⟨[], [("1", ⟨[3], [("m", .s "a1")]⟩), ("2", ⟨[5], [("m", .s "a2")]⟩)]⟩)]

/-- A store whose group `"g2"` lacks the common entry `"a"`. -/
def srcMiss : Store :=
  [("g1", ⟨[], [("a", ⟨[5], []⟩)]⟩), ("g2", ⟨[], []⟩)]

/-- A one-group, one-entry store. -/
def srcW3 : Store := [("g1", ⟨[], [("a", ⟨[1], []⟩)]⟩)]

/-- The transpose of `srcW3` (under either attribute policy: the only
entry and its group both carry no attributes). -/
def dstW3 : Store := [("a", ⟨[], [("g1", ⟨[1], []⟩)]⟩)]

/-- A store with one outer group and no entries at all. -/
def srcDegenerate : Store := [("g", ⟨[], []⟩)]

/-! ## The claims -/

/-- C1: for every source store and every pair `(g, k)` such that outer
group `g` contains an entry named `k` with `k` in the common key set,
after transpose the destination contains, under outer group `k`, an
entry named `g` whose array data is element-wise identical to the data
of entry `k` in source group `g`.  (The `Nodup` hypothesis reflects that
h5py refuses to create two members with the same name, so a completed
run always has distinct keys.) -/
theorem claim_c1 (p : AttrPolicy) (src : Store) (keys? : Option (List String))
    (dst : Store) (g k : String) (G : Group) (e : Entry)
    (hnd : (effectiveKeys src keys?).Nodup)
    (hok : restructure p src keys? = Except.ok dst)
    (hk : k ∈ effectiveKeys src keys?)
    (hg : src.lookup g = some G)
    (he : G.entries.lookup k = some e) :
    ∃ D E, dst.lookup k = some D ∧ D.entries.lookup g = some E ∧
      E.data = e.data := by
  rcases restructure_ok_iff.mp hok with ⟨hnone, hdst⟩
  subst hdst
  have hge := rs_none_iff.mp hnone k hk
  exact ⟨⟨[], (groupEntriesSteps p src k).1⟩, ⟨e.data, newEntryAttrs p G e⟩,
    rs_lookup hnone hk, ge_lookup hge hg he, rfl⟩

theorem claim_c1_witness :
    (effectiveKeys srcW2 none).Nodup ∧
    restructure .groupToEntry srcW2 none = Except.ok dstW2 ∧
    "a" ∈ effectiveKeys srcW2 none ∧
    srcW2.lookup "1" = some ⟨[("m", .s "a1")],
      [("a", ⟨[1, 2], [("d", .s "x")]⟩), ("b", ⟨[3], []⟩)]⟩ ∧
    (∃ D E, dstW2.lookup "a" = some D ∧ D.entries.lookup "1" = some E ∧
      E.data = Entry.data ⟨[1, 2], [("d", .s "x")]⟩) :=
  ⟨by decide, by rfl, by decide, by decide,
    claim_c1 .groupToEntry srcW2 none dstW2 "1" "a"
      ⟨[("m", .s "a1")], [("a", ⟨[1, 2], [("d", .s "x")]⟩), ("b", ⟨[3], []⟩)]⟩
      ⟨[1, 2], [("d", .s "x")]⟩
      (by decide) (by rfl) (by decide) (by decide) (by decide)⟩

/-- C2: a successful transpose of a source with `N` outer groups and a
common key set of size `K` yields exactly `K` outer groups, each with
exactly `N` entries — one per original outer-group key, in source
iteration order. -/
theorem claim_c2 (p : AttrPolicy) (src : Store) (keys? : Option (List String))
    (dst : Store)
    (hnd : (effectiveKeys src keys?).Nodup)
    (hok : restructure p src keys? = Except.ok dst) :
    dst.length = (effectiveKeys src keys?).length ∧
      ∀ pr ∈ dst, pr.2.entries.map Prod.fst = src.map Prod.fst := by
  rcases restructure_ok_iff.mp hok with ⟨hnone, hdst⟩
  subst hdst
  constructor
  · have h2 := congrArg List.length (rs_keys hnone)
    rw [List.length_map] at h2
    exact h2
  · intro pr hpr
    rcases rs_mem_shape hnone pr hpr with ⟨hshape, hge⟩
    rw [hshape]
    exact ge_keys hge

theorem claim_c2_witness :
    (effectiveKeys srcW2 none).Nodup ∧
    restructure .groupToEntry srcW2 none = Except.ok dstW2 ∧
    dstW2.length = (effectiveKeys srcW2 none).length ∧
    ∀ pr ∈ dstW2, pr.2.entries.map Prod.fst = srcW2.map Prod.fst :=
  ⟨by decide, by rfl,
    (claim_c2 .groupToEntry srcW2 none dstW2 (by decide) (by rfl)).1,
    (claim_c2 .groupToEntry srcW2 none dstW2 (by decide) (by rfl)).2⟩

/-- C3: under the implemented `GROUP_TO_ENTRY` policy, each new entry at
position (new-outer = inner key `k`, new-entry = outer key `g`) carries
exactly the attributes of the original outer group `g` (the fresh
dataset starts with no attributes and `ds.attrs.update(group.attrs)`
copies the group's). -/
theorem claim_c3 (src : Store) (keys? : Option (List String))
    (dst : Store) (g k : String) (G : Group) (e : Entry)
    (hnd : (effectiveKeys src keys?).Nodup)
    (hok : restructure .groupToEntry src keys? = Except.ok dst)
    (hk : k ∈ effectiveKeys src keys?)
    (hg : src.lookup g = some G)
    (he : G.entries.lookup k = some e) :
    ∃ D E, dst.lookup k = some D ∧ D.entries.lookup g = some E ∧
      E.attrs = G.attrs := by
  rcases restructure_ok_iff.mp hok with ⟨hnone, hdst⟩
  subst hdst
  have hge := rs_none_iff.mp hnone k hk
  exact ⟨⟨[], (groupEntriesSteps .groupToEntry src k).1⟩,
    ⟨e.data, newEntryAttrs .groupToEntry G e⟩,
    rs_lookup hnone hk, ge_lookup hge hg he, rfl⟩

theorem claim_c3_witness :
    (effectiveKeys srcW2 none).Nodup ∧
    restructure .groupToEntry srcW2 none = Except.ok dstW2 ∧
    "b" ∈ effectiveKeys srcW2 none ∧
    srcW2.lookup "2" = some ⟨[("m", .s "a2")],
      [("a", ⟨[4], []⟩), ("b", ⟨[5], []⟩)]⟩ ∧
    (∃ D E, dstW2.lookup "b" = some D ∧ D.entries.lookup "2" = some E ∧
      E.attrs = Group.attrs ⟨[("m", .s "a2")],
        [("a", ⟨[4], []⟩), ("b", ⟨[5], []⟩)]⟩) :=
  ⟨by decide, by rfl, by decide, by decide,
    claim_c3 srcW2 none dstW2 "2" "b"
      ⟨[("m", .s "a2")], [("a", ⟨[4], []⟩), ("b", ⟨[5], []⟩)]⟩
      ⟨[5], []⟩
      (by decide) (by rfl) (by decide) (by decide) (by decide)⟩

/-- C6: when no explicit common key set is supplied, the transpose uses
exactly the deduplicated union of the entry keys found across every
outer group: the computed list has no duplicates and contains precisely
the keys appearing in at least one group. -/
theorem claim_c6 (src : Store) :
    effectiveKeys src none = computeCommonKeys src ∧
      (computeCommonKeys src).Nodup ∧
      ∀ k, k ∈ computeCommonKeys src ↔
        ∃ pr ∈ src, k ∈ pr.2.entries.map Prod.fst :=
  ⟨rfl, computeCommonKeys_nodup src, fun _ => computeCommonKeys_mem⟩

theorem claim_c6_witness :
    effectiveKeys srcW2 none = computeCommonKeys srcW2 ∧
      (computeCommonKeys srcW2).Nodup ∧
      ("a" ∈ computeCommonKeys srcW2 ↔
        ∃ pr ∈ srcW2, "a" ∈ pr.2.entries.map Prod.fst) :=
  ⟨(claim_c6 srcW2).1, (claim_c6 srcW2).2.1, (claim_c6 srcW2).2.2 "a"⟩

/-- A pre-existing destination store, distinct from any transpose result
used below. -/
def oldDst : Store := [("old", ⟨[("o", .i 1)], []⟩)]

/-- C4 counterexample: on a source whose group `"g2"` lacks the common
entry `"a"`, `restructure_hdf5_file` does raise the missing-entry error,
but the destination file is left holding a partially materialized group
(`"a"` with the dataset copied from `"g1"`), contradicting "no
partial-group materialization". -/
theorem claim_c4_counterexample :
    (restructure_hdf5_file [("src", srcMiss)] "src" none (some "out")).2 =
        some (Err.missingEntry "g2" "a") ∧
      fsGet (restructure_hdf5_file [("src", srcMiss)] "src" none (some "out")).1
          "out" =
        some [("a", ⟨[], [("g1", ⟨[5], []⟩)]⟩)] ∧
      ([("a", (⟨[], [("g1", ⟨[5], []⟩)]⟩ : Group))] : Store) ≠ [] :=
  ⟨rfl, rfl, by decide⟩

/-- C4 (amended): if some outer group lacks an entry for some key of the
common key set, the transpose raises a missing-entry error (h5py
`KeyError`) and the call returns no destination store value; groups
copied before the failure do remain materialized in the destination
file. -/
theorem claim_c4 (fs : FS) (sp : String) (keys? : Option (List String))
    (op : Option String) (src : Store) (k g : String) (G : Group)
    (hs : fsGet fs sp = some src)
    (hk : k ∈ effectiveKeys src keys?)
    (hg : (g, G) ∈ src)
    (hmiss : G.entries.lookup k = none) :
    ∃ gn k', (restructure_hdf5_file fs sp keys? op).2 =
      some (Err.missingEntry gn k') := by
  have heq : (restructure_hdf5_file fs sp keys? op).2 =
      (restructureSteps .groupToEntry src (effectiveKeys src keys?)).2 := by
    simp only [restructure_hdf5_file, hs]
  cases he : (restructureSteps .groupToEntry src (effectiveKeys src keys?)).2 with
  | none =>
    exfalso
    have hge := rs_none_iff.mp he k hk
    rcases ge_none_iff.mp hge (g, G) hg with ⟨e, hee⟩
    rw [hmiss] at hee
    cases hee
  | some e =>
    rcases rs_err_shape he with ⟨gn, k', rfl⟩
    exact ⟨gn, k', by rw [heq, he]⟩

theorem claim_c4_witness :
    fsGet [("src", srcMiss)] "src" = some srcMiss ∧
    "a" ∈ effectiveKeys srcMiss none ∧
    ("g2", (⟨[], []⟩ : Group)) ∈ srcMiss ∧
    ((⟨[], []⟩ : Group).entries.lookup "a" = none) ∧
    ∃ gn k', (restructure_hdf5_file [("src", srcMiss)] "src" none
      (some "out")).2 = some (Err.missingEntry gn k') :=
  ⟨by rfl, by decide, by decide, by rfl,
    claim_c4 [("src", srcMiss)] "src" none (some "out") srcMiss "a" "g2"
      ⟨[], []⟩ (by rfl) (by decide) (by decide) (by rfl)⟩

/-- C5 counterexample: on a source with zero outer groups and no
explicit common key set, `restructure_hdf5_file` raises nothing — it
completes and writes an empty destination store. -/
theorem claim_c5_counterexample :
    (restructure_hdf5_file [("src", ([] : Store))] "src" none (some "out")).2 =
        none ∧
      fsGet (restructure_hdf5_file [("src", ([] : Store))] "src" none
          (some "out")).1 "out" = some [] :=
  ⟨rfl, rfl⟩

/-- C5 (amended): given a source with zero outer groups and no explicit
common key set, the transpose completes successfully (no error of any
kind), writing a destination with zero outer groups. -/
theorem claim_c5 (fs : FS) (sp : String) (op : Option String)
    (hs : fsGet fs sp = some ([] : Store)) :
    restructure_hdf5_file fs sp none op =
      (fsSet fs (op.getD (defaultOutPath sp)) [], none) := by
  simp only [restructure_hdf5_file, hs]
  rfl

theorem claim_c5_witness :
    fsGet [("src", ([] : Store))] "src" = some ([] : Store) ∧
    restructure_hdf5_file [("src", ([] : Store))] "src" none (some "out") =
      (fsSet [("src", ([] : Store))] ((some "out").getD (defaultOutPath "src"))
        [], none) :=
  ⟨by rfl, claim_c5 [("src", ([] : Store))] "src" (some "out") (by rfl)⟩

/-- C7 counterexample: `H5.restructure_fl` replaces the source: after a
successful call on a store holding group `"g1"`, the origin path holds
the transposed store (outer group `"a"`), not the original. -/
theorem claim_c7_counterexample :
    (restructure_fl [("orig", srcW3)] "orig" none).2 = none ∧
      fsGet (restructure_fl [("orig", srcW3)] "orig" none).1 "orig" =
        some dstW3 ∧
      dstW3 ≠ srcW3 :=
  ⟨rfl, rfl, by decide⟩

/-- C7 (amended): `restructure_hdf5_file` never mutates its source (the
source path's content is unchanged whenever the destination path
differs from it), but `H5.restructure_fl` finishes by copying the
transposed temp file over the origin path: after success the source
path holds the transposed store. -/
theorem claim_c7 :
    (∀ (fs : FS) (sp : String) (keys? : Option (List String))
        (op : Option String),
      sp ≠ op.getD (defaultOutPath sp) →
      fsGet (restructure_hdf5_file fs sp keys? op).1 sp = fsGet fs sp) ∧
    (∀ (fs : FS) (orig : String) (keys? : Option (List String)) (src : Store),
      fsGet fs orig = some src → orig ≠ tempPath →
      (restructure_fl fs orig keys?).2 = none →
      fsGet (restructure_fl fs orig keys?).1 orig =
        some (restructureFlSteps src (dsAttrsDict src)
          (effectiveKeys src keys?)).1) := by
  constructor
  · intro fs sp keys? op hne
    cases hfs : fsGet fs sp with
    | none => simp only [restructure_hdf5_file, hfs]
    | some src =>
      simp only [restructure_hdf5_file, hfs]
      rw [fsGet_fsSet_ne hne, hfs]
  · intro fs orig keys? src hs hne hnone
    cases hr : (restructureFlSteps src (dsAttrsDict src)
        (effectiveKeys src keys?)).2 with
    | some e =>
      exfalso
      simp only [restructure_fl, hs, hr] at hnone
      cases hnone
    | none =>
      simp only [restructure_fl, hs, hr]
      rw [fsGet_fsErase_ne hne, fsGet_fsSet_self]

theorem claim_c7_witness :
    ("src" : String) ≠ (some "out" : Option String).getD (defaultOutPath "src") ∧
    fsGet (restructure_hdf5_file [("src", srcW2)] "src" none (some "out")).1
        "src" = fsGet [("src", srcW2)] "src" ∧
    fsGet [("orig", srcW2)] "orig" = some srcW2 ∧
    ("orig" : String) ≠ tempPath ∧
    (restructure_fl [("orig", srcW2)] "orig" none).2 = none ∧
    fsGet (restructure_fl [("orig", srcW2)] "orig" none).1 "orig" =
      some (restructureFlSteps srcW2 (dsAttrsDict srcW2)
        (effectiveKeys srcW2 none)).1 :=
  ⟨by decide, claim_c7.1 [("src", srcW2)] "src" none (some "out") (by decide),
    by rfl, by decide, by rfl,
    claim_c7.2 [("orig", srcW2)] "orig" none srcW2 (by rfl) (by decide) (by rfl)⟩

/-- C8 counterexample: with the destination path already holding a
store, `restructure_hdf5_file` raises no error and replaces the old
content with the transpose result (h5py mode 'w' truncates). -/
theorem claim_c8_counterexample :
    fsGet [("out", oldDst), ("src", srcW3)] "out" = some oldDst ∧
      (restructure_hdf5_file [("out", oldDst), ("src", srcW3)] "src" none
        (some "out")).2 = none ∧
      fsGet (restructure_hdf5_file [("out", oldDst), ("src", srcW3)] "src"
          none (some "out")).1 "out" = some dstW3 ∧
      dstW3 ≠ oldDst :=
  ⟨rfl, rfl, rfl, by decide⟩

/-- C8 (amended): when the destination path is already materialized the
operation proceeds anyway: the result (written store and reported
error) is exactly what it would be on a fresh destination, the old
content is shadowed, and no destination-exists error is raised — the
implementation has no overwrite flag and no such error. -/
theorem claim_c8 (fs : FS) (sp op : String) (keys? : Option (List String))
    (src d0 : Store)
    (hs : fsGet fs sp = some src)
    (hd : fsGet fs op = some d0) :
    restructure_hdf5_file fs sp keys? (some op) =
      (fsSet fs op
        (restructureSteps .groupToEntry src (effectiveKeys src keys?)).1,
        (restructureSteps .groupToEntry src (effectiveKeys src keys?)).2) ∧
      fsGet (restructure_hdf5_file fs sp keys? (some op)).1 op =
        some (restructureSteps .groupToEntry src (effectiveKeys src keys?)).1 := by
  constructor
  · simp only [restructure_hdf5_file, hs]
    rfl
  · simp only [restructure_hdf5_file, hs]
    exact fsGet_fsSet_self _ _ _

theorem claim_c8_witness :
    fsGet [("out", oldDst), ("src", srcW3)] "src" = some srcW3 ∧
    fsGet [("out", oldDst), ("src", srcW3)] "out" = some oldDst ∧
    fsGet (restructure_hdf5_file [("out", oldDst), ("src", srcW3)] "src" none
        (some "out")).1 "out" =
      some (restructureSteps .groupToEntry srcW3 (effectiveKeys srcW3 none)).1 :=
  ⟨by rfl, by rfl,
    (claim_c8 [("out", oldDst), ("src", srcW3)] "src" "out" none srcW3 oldDst
      (by rfl) (by rfl)).2⟩

/-- C9 counterexample: the precondition (every group has every common
key) holds vacuously for a store with one group and no entries, yet its
computed common key set is empty, the first transpose yields the empty
store, and the second transpose yields the empty store again — the
original outer group `"g"` is not restored. -/
theorem claim_c9_counterexample :
    restructure .entryToEntry srcDegenerate none = Except.ok ([] : Store) ∧
      restructure .entryToEntry ([] : Store) none = Except.ok ([] : Store) ∧
      ¬ ("g" ∈ (([] : Store).map Prod.fst) ↔ "g" ∈ srcDegenerate.map Prod.fst) :=
  ⟨by rfl, by rfl, by decide⟩

/-- C9 (amended): for sources whose computed common key set is nonempty,
transposing twice (with the spec-modelled `ENTRY_TO_ENTRY` policy, whose
data and structure path is identical to the implemented one) restores a
store isomorphic to the original: the same outer-group keys, the same
entry keys within each group, and identical array data — up to
attribute differences. -/
theorem claim_c9 (src t1 t2 : Store)
    (hne : computeCommonKeys src ≠ [])
    (h1 : restructure .entryToEntry src none = Except.ok t1)
    (h2 : restructure .entryToEntry t1 none = Except.ok t2) :
    (∀ g, g ∈ t2.map Prod.fst ↔ g ∈ src.map Prod.fst) ∧
      ∀ g G2 G1, t2.lookup g = some G2 → src.lookup g = some G1 →
        ((∀ k, k ∈ G2.entries.map Prod.fst ↔ k ∈ G1.entries.map Prod.fst) ∧
          ∀ k e2, G2.entries.lookup k = some e2 →
            ∃ e1, G1.entries.lookup k = some e1 ∧ e2.data = e1.data) := by
  rcases restructure_ok_iff.mp h1 with ⟨hn1, hd1⟩
  rcases restructure_ok_iff.mp h2 with ⟨hn2, hd2⟩
  have ht1keys : t1.map Prod.fst = effectiveKeys src none := by
    rw [← hd1]; exact rs_keys hn1
  have ht1mem : ∀ pr ∈ t1, pr.2.entries.map Prod.fst = src.map Prod.fst := by
    intro pr hpr
    rw [← hd1] at hpr
    rcases rs_mem_shape hn1 pr hpr with ⟨hsh, hge⟩
    rw [hsh]
    exact ge_keys hge
  have ht2keys : t2.map Prod.fst = effectiveKeys t1 none := by
    rw [← hd2]; exact rs_keys hn2
  have ht1ne : t1 ≠ [] := by
    intro h
    apply hne
    have := ht1keys
    rw [h] at this
    simp only [List.map_nil] at this
    exact this.symm
  constructor
  · intro g
    constructor
    · intro hg
      rw [ht2keys] at hg
      have hg' : g ∈ computeCommonKeys t1 := hg
      rcases computeCommonKeys_mem.mp hg' with ⟨pr, hpr, hgm⟩
      rw [ht1mem pr hpr] at hgm
      exact hgm
    · intro hg
      rw [ht2keys]
      rcases List.exists_mem_of_ne_nil t1 ht1ne with ⟨pr, hpr⟩
      show g ∈ computeCommonKeys t1
      exact computeCommonKeys_mem.mpr ⟨pr, hpr, by rw [ht1mem pr hpr]; exact hg⟩
  · intro g G2 G1 hg2 hg1
    have hg2' : (restructureSteps .entryToEntry t1
        (effectiveKeys t1 none)).1.lookup g = some G2 := by
      rw [hd2]; exact hg2
    rcases rs_lookup_shape hn2 hg2' with ⟨hG2, hgeN, hgK⟩
    have hG2e : G2.entries = (groupEntriesSteps .entryToEntry t1 g).1 := by
      rw [hG2]
    constructor
    · intro k
      rw [hG2e, ge_keys hgeN, ht1keys]
      constructor
      · intro hk
        have hgeS : (groupEntriesSteps .entryToEntry src k).2 = none :=
          rs_none_iff.mp hn1 k hk
        rcases ge_none_iff.mp hgeS (g, G1) (lookup_some_mem hg1) with ⟨e, he⟩
        exact lookup_some_mem_keys he
      · intro hk
        show k ∈ computeCommonKeys src
        exact computeCommonKeys_mem.mpr ⟨(g, G1), lookup_some_mem hg1, hk⟩
    · intro k e2 he2
      rw [hG2e] at he2
      rcases ge_lookup_rev he2 with ⟨Gk, ek, hGk, hek, he2eq⟩
      have hGk' : (restructureSteps .entryToEntry src
          (effectiveKeys src none)).1.lookup k = some Gk := by
        rw [hd1]; exact hGk
      rcases rs_lookup_shape hn1 hGk' with ⟨hGkshape, hgeSN, hkK⟩
      have hGke : Gk.entries = (groupEntriesSteps .entryToEntry src k).1 := by
        rw [hGkshape]
      rw [hGke] at hek
      rcases ge_lookup_rev hek with ⟨G1', e1, hG1', he1, hekeq⟩
      rw [hg1] at hG1'
      injection hG1' with hG1'
      subst hG1'
      exact ⟨e1, he1, by rw [he2eq, hekeq]⟩

theorem claim_c9_witness :
    computeCommonKeys srcW3 ≠ [] ∧
      restructure .entryToEntry srcW3 none = Except.ok dstW3 ∧
      restructure .entryToEntry dstW3 none = Except.ok srcW3 ∧
      ("g1" ∈ srcW3.map Prod.fst ↔ "g1" ∈ srcW3.map Prod.fst) :=
  ⟨by decide, by rfl, by rfl,
    (claim_c9 srcW3 dstW3 srcW3 (by decide) (by rfl) (by rfl)).1 "g1"⟩

/-- C10: in `H5.restructure_fl`, every new outer group named `k`
additionally receives, as its own group attributes, the attributes of
the entry named `k` in whichever source outer group is iterated last
(the `datasets_attrs` dict is filled group by group, so earlier groups'
entry attributes for `k` are overwritten before use). -/
theorem claim_c10 (fs : FS) (orig : String) (keys? : Option (List String))
    (src : Store) (k : String)
    (hs : fsGet fs orig = some src)
    (hne : orig ≠ tempPath)
    (hnone : (restructure_fl fs orig keys?).2 = none)
    (hk : k ∈ effectiveKeys src keys?) :
    ∃ st D e, fsGet (restructure_fl fs orig keys?).1 orig = some st ∧
      st.lookup k = some D ∧ lastEntryFor src k = some e ∧
      D.attrs = e.attrs := by
  cases hr : (restructureFlSteps src (dsAttrsDict src)
      (effectiveKeys src keys?)).2 with
  | some e =>
    exfalso
    simp only [restructure_fl, hs, hr] at hnone
    cases hnone
  | none =>
    rcases fl_lookup hr hk with ⟨a, ha, hl⟩
    rw [dsAttrsDict_eq] at ha
    cases hle : lastEntryFor src k with
    | none => rw [hle] at ha; cases ha
    | some e0 =>
      rw [hle] at ha
      injection ha with ha
      refine ⟨(restructureFlSteps src (dsAttrsDict src)
          (effectiveKeys src keys?)).1,
        ⟨a, (groupEntriesSteps .groupToEntry src k).1⟩, e0, ?_, hl, rfl, ha.symm⟩
      simp only [restructure_fl, hs, hr]
      rw [fsGet_fsErase_ne hne, fsGet_fsSet_self]

theorem claim_c10_witness :
    fsGet [("orig", srcW2)] "orig" = some srcW2 ∧
      ("orig" : String) ≠ tempPath ∧
      (restructure_fl [("orig", srcW2)] "orig" none).2 = none ∧
      "a" ∈ effectiveKeys srcW2 none ∧
      ∃ st D e,
        fsGet (restructure_fl [("orig", srcW2)] "orig" none).1 "orig" =
          some st ∧
        st.lookup "a" = some D ∧ lastEntryFor srcW2 "a" = some e ∧
        D.attrs = e.attrs :=
  ⟨by rfl, by decide, by rfl, by decide,
    claim_c10 [("orig", srcW2)] "orig" none srcW2 "a"
      (by rfl) (by decide) (by rfl) (by decide)⟩

end MiscTools
